import Mathlib

/-!
Verification of the finding-classification and label-aggregation engine of
azureenergylabelerlib against its natural-language specification.

The definitions below are a shallow embedding of the Python sources:
  * `Finding`, `Finding.days_open`, `Finding.measurement_data`, `findingEq`,
    `insertFinding`, `get_findings`  — entities.py, classes `Finding` and
    `DefenderForCloud` (`__hash__`/`__eq__` compare `recommendation_id`;
    `get_findings` accumulates `Finding` objects into a Python `set`).
  * `Measurement`, `countSeverity`, `lowOrHigher`, `maxDaysOpenOf`,
    `thresholdLoop`, `energy_label` — entities.py, `EnergyLabeler.energy_label`.
    The pandas DataFrame of `measurement_data` rows is embedded as a
    `List Measurement`; column filters become list filters.
  * `ThresholdDict`, `thresholdLoopDyn`, `energy_label_dyn` — the same
    property at the level of Python dict lookups, where a missing key raises
    `KeyError`, caught by the surrounding `try/except`.
  * `Subscription.get_open_findings`, `Subscription.get_energy_label` —
    entities.py, class `Subscription`.
  * `TenantThreshold`, `counterGet`, `tenantThresholdLoop`,
    `get_energy_label_of_targeted_subscriptions` — entities.py,
    `Tenant.get_energy_label_of_targeted_subscriptions`.  Python `/` on a
    zero denominator raises `ZeroDivisionError`; the embedding makes that
    explicit in `Except`.
Dates are embedded as whole-day integers; a `status_change_date` that failed
`datetime.strptime` parsing (`_parse_date_time` returning `None`) is `none`.
An `energy_label` result of `none` models an exception escaping the property
(the `UnboundLocalError` on the `return` line when the loop never assigned).
-/

namespace Azel

/-- Fields of one raw finding record, as read by the `Finding` properties in
entities.py (dict lookups with string defaults).  `status_change_date` is the
result of `_parse_date_time`: `none` when the timestamp failed to parse. -/
structure Finding where
  recommendation_id : String
  severity : String
  subscription_id : String
  resource_group : String
  compliance_state : String
  state : String
  status_change_date : Option Int
deriving DecidableEq, Repr

/-- Python: `(current_time - status_change_date).days`, with the broad
`except` returning `-1` when `status_change_date` is `None`.  Dates are
whole-day integers, `now` is the current day. -/
def Finding.days_open (now : Int) (f : Finding) : Int :=
  match f.status_change_date with
  | some d => now - d
  | none => -1

/-- CPython hashes equal strings equally; the embedding abstracts
`hash(self.recommendation_id)` as the key itself. -/
def findingHash (f : Finding) : String :=
  f.recommendation_id

/-- Python: `Finding.__eq__`, i.e. `hash(self) == hash(other)`. -/
def findingEq (a b : Finding) : Bool :=
  findingHash a == findingHash b

/-- One step of `finding_details_set.add(Finding(finding_details))`: a Python
set keeps the first element of each equality class. -/
def insertFinding (s : List Finding) (f : Finding) : List Finding :=
  if s.any (fun g => findingEq g f) then s else s ++ [f]

/-- Python: `DefenderForCloud.get_findings` — iterate the frameworks, add
every returned record to one set, return it as a list.  `queries` is the list
of per-framework query results. -/
def get_findings (queries : List (List Finding)) : List Finding :=
  queries.foldl (fun acc q => q.foldl insertFinding acc) []

/-- One row of the measurement DataFrame, `Finding.measurement_data`. -/
structure Measurement where
  subscriptionId : String
  resourceGroupName : String
  severity : String
  daysOpen : Int
deriving DecidableEq, Repr

/-- Python: `Finding.measurement_data`. -/
def Finding.measurement_data (now : Int) (f : Finding) : Measurement :=
  ⟨f.subscription_id, f.resource_group, f.severity, f.days_open now⟩

/-- One row of a severity/age threshold table with all four keys present. -/
structure Threshold where
  label : Char
  high : Int
  medium : Int
  low : Int
  days_open_less_than : Int
deriving DecidableEq, Repr

/-- The label dataclasses of labels.py (`ResourceGroupEnergyLabel` and
`SubscriptionEnergyLabel` have identical fields); the dataclass default for
a field not passed positionally is 9999. -/
structure EnergyLabel where
  label : Char
  number_of_high_findings : Int
  number_of_medium_findings : Int
  number_of_low_findings : Int
  max_days_open : Int
deriving DecidableEq, Repr

/-- Python: `self.findings[self.findings['Severity'] == sev].shape[0]`. -/
def countSeverity (ms : List Measurement) (sev : String) : Int :=
  ((ms.filter (fun r => r.severity == sev)).length : Int)

/-- Python: the `open_findings_low_or_higher` DataFrame selection. -/
def lowOrHigher (ms : List Measurement) : List Measurement :=
  ms.filter (fun r => r.severity == "Low" || r.severity == "Medium" || r.severity == "High")

/-- Python `max` over a non-empty iterable; the `[]` case is never used by
callers (they guard on emptiness first). -/
def listMaxInt : List Int → Int
  | [] => 0
  | x :: xs => xs.foldl max x

/-- Python: `max(open_findings_low_or_higher['Days Open']) if
open_findings_low_or_higher['Days Open'].shape[0] > 0 else 0`. -/
def maxDaysOpenOf (ms : List Measurement) : Int :=
  if 0 < (lowOrHigher ms).length then listMaxInt ((lowOrHigher ms).map (fun r => r.daysOpen)) else 0

/-- The `for threshold in self.threshold:` loop of `EnergyLabeler.energy_label`.
`acc` is the current binding of the Python local `energy_label` (`none` =
still unbound).  A matching rule breaks with the rule's label; a non-matching
rule overwrites the local with the worst label `'F'` and continues. -/
def thresholdLoop (h m l d : Int) (acc : Option EnergyLabel) :
    List Threshold → Option EnergyLabel
  | [] => acc
  | t :: ts =>
    if h ≤ t.high ∧ m ≤ t.medium ∧ l ≤ t.low ∧ d < t.days_open_less_than then
      some ⟨t.label, h, m, l, d⟩
    else
      thresholdLoop h m l d (some ⟨'F', h, m, l, d⟩) ts

/-- Python: `EnergyLabeler.energy_label` with a fully-populated threshold
table.  An empty findings frame short-circuits to
`self.energy_label_class('A', 0, 0, 0)` — positional arguments, so
`max_days_open` keeps its dataclass default 9999.  A `none` result models the
`UnboundLocalError` raised at the `return` (outside the `try`) when the table
is empty and the loop never bound the local. -/
def energy_label (ms : List Measurement) (thresholds : List Threshold) : Option EnergyLabel :=
  if ms.isEmpty then some ⟨'A', 0, 0, 0, 9999⟩
  else
    thresholdLoop (countSeverity ms "High") (countSeverity ms "Medium")
      (countSeverity ms "Low") (maxDaysOpenOf ms) none thresholds

/-- Python exceptions distinguished by the embedding. -/
inductive PyError
  | keyError
  | zeroDivision
  | valueError
deriving DecidableEq, Repr

/-- A threshold row as a Python dict: any of the keys used by the loop may be
absent, in which case subscripting raises `KeyError`. -/
structure ThresholdDict where
  label : Option Char
  high : Option Int
  medium : Option Int
  low : Option Int
  days_open_less_than : Option Int
deriving DecidableEq, Repr

/-- Python dict subscript: `d[key]` raises `KeyError` on a missing key. -/
def getItem {α : Type} : Option α → Except PyError α
  | some v => Except.ok v
  | none => Except.error PyError.keyError

/-- The threshold loop at dict level.  `all([...])` builds the whole list, so
all four lookups happen before the test; `threshold['label']` is read only in
the matching branch. -/
def thresholdLoopDyn (h m l d : Int) (acc : Option EnergyLabel) :
    List ThresholdDict → Except PyError (Option EnergyLabel)
  | [] => Except.ok acc
  | t :: ts => do
    let th ← getItem t.high
    let tm ← getItem t.medium
    let tl ← getItem t.low
    let td ← getItem t.days_open_less_than
    if h ≤ th ∧ m ≤ tm ∧ l ≤ tl ∧ d < td then do
      let lab ← getItem t.label
      pure (some ⟨lab, h, m, l, d⟩)
    else
      thresholdLoopDyn h m l d (some ⟨'F', h, m, l, d⟩) ts

/-- Python: `EnergyLabeler.energy_label` with the table as raw dicts.  The
`try/except Exception` around the computation turns any exception into
`self.energy_label_class('F', 0, 0, 0)` (four positional arguments, so
`max_days_open` is the dataclass default 9999).  An `Except.ok none` outcome
is the `UnboundLocalError` at the `return`, outside the `try`. -/
def energy_label_dyn (ms : List Measurement) (thresholds : List ThresholdDict) :
    Option EnergyLabel :=
  if ms.isEmpty then some ⟨'A', 0, 0, 0, 9999⟩
  else
    match thresholdLoopDyn (countSeverity ms "High") (countSeverity ms "Medium")
        (countSeverity ms "Low") (maxDaysOpenOf ms) none thresholds with
    | Except.ok acc => acc
    | Except.error _ => some ⟨'F', 0, 0, 0, 9999⟩

/-- View of a fully-populated threshold row as a dict. -/
def Threshold.toDict (t : Threshold) : ThresholdDict :=
  ⟨some t.label, some t.high, some t.medium, some t.low, some t.days_open_less_than⟩

/-- entities.py configuration import: `RESOURCE_GROUP_THRESHOLDS` as shipped
in configuration.py — note its rows carry no `days_open_less_than` key. -/
def RESOURCE_GROUP_THRESHOLDS : List ThresholdDict :=
  [⟨some 'A', some 0, some 10, some 20, none⟩,
   ⟨some 'B', some 10, some 20, some 40, none⟩,
   ⟨some 'C', some 15, some 30, some 60, none⟩,
   ⟨some 'D', some 20, some 40, some 80, none⟩,
   ⟨some 'E', some 25, some 50, some 100, none⟩]

/-- Python: `Subscription.get_open_findings` — select the rows whose
`'Subscription ID'` column equals this subscription's id. -/
def Subscription.get_open_findings (subId : String) (ms : List Measurement) :
    List Measurement :=
  ms.filter (fun r => r.subscriptionId == subId)

/-- Python: `Subscription.get_energy_label` — classify the
subscription-scoped findings against the subscription threshold table. -/
def Subscription.get_energy_label (subId : String) (threshold : List Threshold)
    (ms : List Measurement) : Option EnergyLabel :=
  energy_label (Subscription.get_open_findings subId ms) threshold

/-- Python `str.lower()`, embedded as character-wise lowercasing. -/
def pyLower (s : String) : String :=
  ⟨s.data.map Char.toLower⟩

/-- Python: `ResourceGroup.get_open_findings` — rows whose
`'Resource Group Name'` column equals `self.name.lower()`. -/
def ResourceGroup.get_open_findings (name : String) (ms : List Measurement) :
    List Measurement :=
  ms.filter (fun r => r.resourceGroupName == pyLower name)

/-- One row of the tenant threshold table (configuration.py shape:
`label` and `percentage`). -/
structure TenantThreshold where
  label : Char
  percentage : ℚ
deriving DecidableEq, Repr

/-- labels.py: `AggregateSubscriptionEnergyLabel`. -/
structure AggregateSubscriptionEnergyLabel where
  label : Char
  best_label : Char
  worst_label : Char
  subscriptions_measured : Nat
deriving DecidableEq, Repr

/-- configuration.py: `TENANT_THRESHOLDS`. -/
def TENANT_THRESHOLDS : List TenantThreshold :=
  [⟨'A', 90⟩, ⟨'B', 70⟩, ⟨'C', 50⟩, ⟨'D', 30⟩, ⟨'E', 20⟩]

/-- Python: `label_counter.get(label, 0)` for the `Counter` built from the
subscription labels. -/
def counterGet (labels : List Char) (c : Char) : Nat :=
  (labels.filter (fun x => x == c)).length

/-- Python `min` over a non-empty collection (the keys of a `Counter`); the
`[]` case is never reached, an empty collection raises `ValueError` which the
callers model explicitly. -/
def listMinChar : List Char → Char
  | [] => 'Z'
  | x :: xs => xs.foldl min x

/-- Python `max` over a non-empty collection of labels. -/
def listMaxChar : List Char → Char
  | [] => 'Z'
  | x :: xs => xs.foldl max x

/-- The keys of `Counter(subLabels)`: each distinct label once. -/
def counterKeys (labels : List Char) : List Char :=
  labels.dedup

/-- The `for threshold in self.thresholds:` loop of
`Tenant.get_energy_label_of_targeted_subscriptions`.  `runningSum` is
`sum(subscription_sums)` so far; each iteration appends
`label_counter.get(label, 0)` and tests
`sum(subscription_sums) / number_of_subscriptions * 100 >= percentage` —
Python `/` raises `ZeroDivisionError` when `n = 0`.  `Except.ok none` is the
loop falling through to its `else:` clause. -/
def tenantThresholdLoop (subLabels : List Char) (n : Nat) (runningSum : Nat) :
    List TenantThreshold → Except PyError (Option AggregateSubscriptionEnergyLabel)
  | [] => Except.ok none
  | t :: ts =>
    let s := runningSum + counterGet subLabels t.label
    if n = 0 then Except.error PyError.zeroDivision
    else if t.percentage ≤ (s : ℚ) / (n : ℚ) * 100 then
      Except.ok (some ⟨t.label, listMinChar (counterKeys subLabels),
        listMaxChar (counterKeys subLabels), n⟩)
    else tenantThresholdLoop subLabels n s ts

/-- Python: `Tenant.get_energy_label_of_targeted_subscriptions`, as a function
of the labels of the labeled in-scope subscriptions.  The `for`/`else` fallback
builds `AggregateSubscriptionEnergyLabel('F', min(keys), max(keys), n)`;
`min`/`max` of an empty key collection raise `ValueError`. -/
def get_energy_label_of_targeted_subscriptions (subLabels : List Char)
    (thresholds : List TenantThreshold) :
    Except PyError AggregateSubscriptionEnergyLabel :=
  match tenantThresholdLoop subLabels subLabels.length 0 thresholds with
  | Except.error e => Except.error e
  | Except.ok (some r) => Except.ok r
  | Except.ok none =>
    if (counterKeys subLabels).isEmpty then Except.error PyError.valueError
    else Except.ok ⟨'F', listMinChar (counterKeys subLabels),
      listMaxChar (counterKeys subLabels), subLabels.length⟩

/-- Modelled from the spec: the cumulative-coverage walk of §4.4/§4.5 as the
claims describe it — walk the table in order, keep the set of labels seen so
far, and match the first rule whose cumulative percentage (count of entities
whose label equals any label seen so far, divided by the total, times 100) is
greater than or equal to the rule's percentage bound (inclusive). -/
def specCumulativeWalk (subLabels : List Char) (seen : List Char) :
    List TenantThreshold → Option Char
  | [] => none
  | t :: ts =>
    let seen' := seen ++ [t.label]
    if t.percentage ≤ ((subLabels.filter (fun c => decide (c ∈ seen'))).length : ℚ)
        / (subLabels.length : ℚ) * 100 then
      some t.label
    else specCumulativeWalk subLabels seen' ts

/-- Modelled from the spec: the aggregate emitted by §4.4's reconciliation,
carrying the reconciled label, both candidate labels, and the count of
resource groups measured. -/
structure SpecAggregateEnergyLabel where
  label : Char
  finding_based_label : Char
  coverage_based_label : Char
  resource_groups_measured : Nat
deriving DecidableEq, Repr

/-- Modelled from the spec: the coverage-based candidate label of §4.4 —
classify every resource group, then run the cumulative-coverage walk over the
coverage table; fall back to the worst label `'F'` when no rule matches. -/
def specCoverageLabel (rgLabels : List Char) (coverageTable : List TenantThreshold) : Char :=
  (specCumulativeWalk rgLabels [] coverageTable).getD 'F'

/-- Modelled from the spec: the subscription aggregation of §4.4 as claim C4
states it — compute the finding-based candidate from the subscription-scoped
findings and the coverage-based candidate from the labels of the
subscription's resource groups, sort the two lexicographically, select the
second (worse), and emit an aggregate carrying both candidates plus the count
of resource groups measured. -/
def specSubscriptionAggregate (subId : String) (findingTable : List Threshold)
    (rgTable : List Threshold) (coverageTable : List TenantThreshold)
    (rgNames : List String) (ms : List Measurement) : Option SpecAggregateEnergyLabel :=
  match energy_label (Subscription.get_open_findings subId ms) findingTable with
  | none => none
  | some fb =>
    let rgLabels := rgNames.map (fun n =>
      ((energy_label (ResourceGroup.get_open_findings n ms) rgTable).getD
        ⟨'F', 9999, 9999, 9999, 9999⟩).label)
    let cov := specCoverageLabel rgLabels coverageTable
    let sorted := if fb.label ≤ cov then (fb.label, cov) else (cov, fb.label)
    some ⟨sorted.2, fb.label, cov, rgNames.length⟩

section HelperLemmas

variable {α : Type} [LinearOrder α]

theorem foldl_min_le_init (xs : List α) : ∀ a : α, xs.foldl min a ≤ a := by
  induction xs with
  | nil => intro a; simp
  | cons x xs ih =>
    intro a
    calc (x :: xs).foldl min a = xs.foldl min (min a x) := by simp [List.foldl]
    _ ≤ min a x := ih (min a x)
    _ ≤ a := min_le_left a x

theorem foldl_min_le_mem (xs : List α) : ∀ (a y : α), y ∈ xs → xs.foldl min a ≤ y := by
  induction xs with
  | nil => intro a y hy; cases hy
  | cons x xs ih =>
    intro a y hy
    rcases List.mem_cons.mp hy with h | h
    · subst h
      calc (y :: xs).foldl min a = xs.foldl min (min a y) := by simp [List.foldl]
      _ ≤ min a y := foldl_min_le_init xs (min a y)
      _ ≤ y := min_le_right a y
    · simpa [List.foldl] using ih (min a x) y h

theorem foldl_min_mem (xs : List α) : ∀ a : α, xs.foldl min a ∈ a :: xs := by
  induction xs with
  | nil => intro a; simp
  | cons x xs ih =>
    intro a
    have h := ih (min a x)
    rcases List.mem_cons.mp h with h | h
    · have hfold : (x :: xs).foldl min a = min a x := by simp [List.foldl, h]
      rcases min_choice a x with hc | hc
      · rw [hfold, hc]; exact List.mem_cons_self a (x :: xs)
      · rw [hfold, hc]; exact List.mem_cons.mpr (Or.inr (List.mem_cons_self x xs))
    · simp [List.foldl, List.mem_cons.mpr (Or.inr (List.mem_cons.mpr (Or.inr h)))]

theorem foldl_max_le_init (xs : List α) : ∀ a : α, a ≤ xs.foldl max a := by
  induction xs with
  | nil => intro a; simp
  | cons x xs ih =>
    intro a
    calc a ≤ max a x := le_max_left a x
    _ ≤ xs.foldl max (max a x) := ih (max a x)
    _ = (x :: xs).foldl max a := by simp [List.foldl]

theorem foldl_max_le_mem (xs : List α) : ∀ (a y : α), y ∈ xs → y ≤ xs.foldl max a := by
  induction xs with
  | nil => intro a y hy; cases hy
  | cons x xs ih =>
    intro a y hy
    rcases List.mem_cons.mp hy with h | h
    · subst h
      calc y ≤ max a y := le_max_right a y
      _ ≤ xs.foldl max (max a y) := foldl_max_le_init xs (max a y)
      _ = (y :: xs).foldl max a := by simp [List.foldl]
    · simpa [List.foldl] using ih (max a x) y h

theorem foldl_max_mem (xs : List α) : ∀ a : α, xs.foldl max a ∈ a :: xs := by
  induction xs with
  | nil => intro a; simp
  | cons x xs ih =>
    intro a
    have h := ih (max a x)
    rcases List.mem_cons.mp h with h | h
    · have hfold : (x :: xs).foldl max a = max a x := by simp [List.foldl, h]
      rcases max_choice a x with hc | hc
      · rw [hfold, hc]; exact List.mem_cons_self a (x :: xs)
      · rw [hfold, hc]; exact List.mem_cons.mpr (Or.inr (List.mem_cons_self x xs))
    · simp [List.foldl, List.mem_cons.mpr (Or.inr (List.mem_cons.mpr (Or.inr h)))]

end HelperLemmas

/-- The label the classifier reports for a table walk: the matched rule's
label, or the worst label `'F'` when the walk matched nothing. -/
def labelOr : Option Threshold → Char
  | some t => t.label
  | none => 'F'

theorem thresholdLoop_cons (h m l d : Int) (acc : Option EnergyLabel) (t : Threshold)
    (ts : List Threshold) :
    thresholdLoop h m l d acc (t :: ts) =
      if h ≤ t.high ∧ m ≤ t.medium ∧ l ≤ t.low ∧ d < t.days_open_less_than then
        some ⟨t.label, h, m, l, d⟩
      else thresholdLoop h m l d (some ⟨'F', h, m, l, d⟩) ts := rfl

theorem thresholdLoop_find?_some (h m l d : Int) :
    ∀ (ts : List Threshold) (acc : Option EnergyLabel) (t : Threshold),
      ts.find? (fun r =>
        decide (h ≤ r.high ∧ m ≤ r.medium ∧ l ≤ r.low ∧ d < r.days_open_less_than)) = some t →
      thresholdLoop h m l d acc ts = some ⟨t.label, h, m, l, d⟩ := by
  intro ts
  induction ts with
  | nil => intro acc t hf; simp [List.find?] at hf
  | cons x xs ih =>
    intro acc t hf
    rw [List.find?_cons_eq_some] at hf
    simp only [decide_eq_true_eq, Bool.not_eq_true', decide_eq_false_iff_not] at hf
    rcases hf with ⟨hx, rfl⟩ | ⟨hx, hf⟩
    · rw [thresholdLoop_cons, if_pos hx]
    · rw [thresholdLoop_cons, if_neg hx]
      exact ih _ t hf

theorem thresholdLoop_find?_none (h m l d : Int) :
    ∀ (ts : List Threshold) (acc : Option EnergyLabel),
      ts.find? (fun r =>
        decide (h ≤ r.high ∧ m ≤ r.medium ∧ l ≤ r.low ∧ d < r.days_open_less_than)) = none →
      ts ≠ [] →
      thresholdLoop h m l d acc ts = some ⟨'F', h, m, l, d⟩ := by
  intro ts
  induction ts with
  | nil => intro acc hf hne; exact absurd rfl hne
  | cons x xs ih =>
    intro acc hf _
    rw [List.find?_eq_none] at hf
    simp only [decide_eq_true_eq] at hf
    have hx : ¬(h ≤ x.high ∧ m ≤ x.medium ∧ l ≤ x.low ∧ d < x.days_open_less_than) :=
      hf x (List.mem_cons_self x xs)
    rw [thresholdLoop_cons, if_neg hx]
    cases xs with
    | nil => rfl
    | cons y ys =>
      apply ih _ _ (by simp)
      rw [List.find?_eq_none]
      simp only [decide_eq_true_eq]
      intro r hr
      exact hf r (List.mem_cons_of_mem x hr)

/-- Characterization of a non-empty walk: the result always exists and
carries the computed counts together with `labelOr` of the first match. -/
theorem thresholdLoop_characterization (h m l d : Int) (ts : List Threshold)
    (hts : ts ≠ []) :
    thresholdLoop h m l d none ts =
      some ⟨labelOr (ts.find? (fun r =>
        decide (h ≤ r.high ∧ m ≤ r.medium ∧ l ≤ r.low ∧ d < r.days_open_less_than))),
        h, m, l, d⟩ := by
  cases hf : ts.find? (fun r =>
      decide (h ≤ r.high ∧ m ≤ r.medium ∧ l ≤ r.low ∧ d < r.days_open_less_than)) with
  | none => rw [thresholdLoop_find?_none h m l d ts none hf hts]; rfl
  | some t => rw [thresholdLoop_find?_some h m l d ts none t hf]; rfl

theorem listMinChar_mem (x : Char) (xs : List Char) : listMinChar (x :: xs) ∈ x :: xs :=
  foldl_min_mem xs x

theorem listMinChar_le (x : Char) (xs : List Char) (y : Char) (hy : y ∈ x :: xs) :
    listMinChar (x :: xs) ≤ y := by
  rcases List.mem_cons.mp hy with h | h
  · subst h; exact foldl_min_le_init xs y
  · exact foldl_min_le_mem xs x y h

theorem listMaxChar_mem (x : Char) (xs : List Char) : listMaxChar (x :: xs) ∈ x :: xs :=
  foldl_max_mem xs x

theorem listMaxChar_le (x : Char) (xs : List Char) (y : Char) (hy : y ∈ x :: xs) :
    y ≤ listMaxChar (x :: xs) := by
  rcases List.mem_cons.mp hy with h | h
  · subst h; exact foldl_max_le_init xs y
  · exact foldl_max_le_mem xs x y h

theorem listMinChar_congr_mem (k l : List Char) (hk : k ≠ []) (hl : l ≠ [])
    (hmem : ∀ a : Char, a ∈ k ↔ a ∈ l) : listMinChar k = listMinChar l := by
  obtain ⟨x, xs, rfl⟩ := List.exists_cons_of_ne_nil hk
  obtain ⟨y, ys, rfl⟩ := List.exists_cons_of_ne_nil hl
  apply le_antisymm
  · exact listMinChar_le x xs _ ((hmem _).mpr (listMinChar_mem y ys))
  · exact listMinChar_le y ys _ ((hmem _).mp (listMinChar_mem x xs))

theorem listMaxChar_congr_mem (k l : List Char) (hk : k ≠ []) (hl : l ≠ [])
    (hmem : ∀ a : Char, a ∈ k ↔ a ∈ l) : listMaxChar k = listMaxChar l := by
  obtain ⟨x, xs, rfl⟩ := List.exists_cons_of_ne_nil hk
  obtain ⟨y, ys, rfl⟩ := List.exists_cons_of_ne_nil hl
  apply le_antisymm
  · exact listMaxChar_le y ys _ ((hmem _).mp (listMaxChar_mem x xs))
  · exact listMaxChar_le x xs _ ((hmem _).mpr (listMaxChar_mem y ys))

theorem counterKeys_ne_nil (l : List Char) (hl : l ≠ []) : counterKeys l ≠ [] := by
  obtain ⟨x, xs, rfl⟩ := List.exists_cons_of_ne_nil hl
  exact List.ne_nil_of_mem (List.mem_dedup.mpr (List.mem_cons_self x xs))

theorem listMinChar_counterKeys (l : List Char) (hl : l ≠ []) :
    listMinChar (counterKeys l) = listMinChar l :=
  listMinChar_congr_mem (counterKeys l) l (counterKeys_ne_nil l hl) hl
    (fun _ => List.mem_dedup)

theorem listMaxChar_counterKeys (l : List Char) (hl : l ≠ []) :
    listMaxChar (counterKeys l) = listMaxChar l :=
  listMaxChar_congr_mem (counterKeys l) l (counterKeys_ne_nil l hl) hl
    (fun _ => List.mem_dedup)

theorem isEmpty_false_of_ne_nil {α : Type} (l : List α) (hl : l ≠ []) :
    ¬ (l.isEmpty = true) := by
  obtain ⟨x, xs, rfl⟩ := List.exists_cons_of_ne_nil hl
  simp

/-- C1: for every non-empty finding set and every ordered threshold table,
the classifier walks the table in declared order and returns the label of the
first rule satisfying `high ≤ rule.high ∧ medium ≤ rule.medium ∧
low ≤ rule.low ∧ max_days_open < rule.days_open_less_than` — the three
severity ceilings inclusive, the age bound strictly exclusive — carrying the
computed counts.  `List.find?` is exactly "first in declared order". -/
theorem C1_first_matching_rule (ms : List Measurement) (ts : List Threshold)
    (t : Threshold) (hms : ms ≠ [])
    (hfirst : ts.find? (fun r =>
      decide (countSeverity ms "High" ≤ r.high ∧
        countSeverity ms "Medium" ≤ r.medium ∧
        countSeverity ms "Low" ≤ r.low ∧
        maxDaysOpenOf ms < r.days_open_less_than)) = some t) :
    energy_label ms ts =
      some ⟨t.label, countSeverity ms "High", countSeverity ms "Medium",
        countSeverity ms "Low", maxDaysOpenOf ms⟩ := by
  unfold energy_label
  rw [if_neg (isEmpty_false_of_ne_nil ms hms)]
  exact thresholdLoop_find?_some _ _ _ _ ts none t hfirst

/-- Witness for C1: one High finding open for 3 days; the first rule fails on
the high ceiling, the second matches and its label `'B'` is returned. -/
theorem C1_first_matching_rule_witness :
    ([⟨"s", "rg1", "High", 3⟩] : List Measurement) ≠ [] ∧
    energy_label [⟨"s", "rg1", "High", 3⟩]
      [⟨'A', 0, 10, 20, 999⟩, ⟨'B', 10, 20, 40, 999⟩] = some ⟨'B', 1, 0, 0, 3⟩ := by
  refine ⟨by decide, ?_⟩
  rw [C1_first_matching_rule [⟨"s", "rg1", "High", 3⟩]
    [⟨'A', 0, 10, 20, 999⟩, ⟨'B', 10, 20, 40, 999⟩] ⟨'B', 10, 20, 40, 999⟩
    (by decide) (by decide)]
  decide

/-- C2 counterexample: the empty-findings short-circuit returns the
hard-coded label `'A'` with `max_days_open` equal to the dataclass default
9999; for a valid table whose best label is `'B'` the claimed result — the
table's best label with all counts (including `max_days_open`) zero — does
not hold. -/
theorem C2_counterexample :
    energy_label [] [⟨'B', 0, 10, 20, 999⟩] = some ⟨'A', 0, 0, 0, 9999⟩ ∧
    energy_label [] [⟨'B', 0, 10, 20, 999⟩] ≠ some ⟨'B', 0, 0, 0, 0⟩ := by
  exact ⟨rfl, by decide⟩

/-- C2 amended: classifying an empty finding set returns the fixed label
`'A'` (not in general the table's best label) with zero high/medium/low
counts and `max_days_open` equal to the dataclass default 9999, via a
short-circuit that does not consult the table at all. -/
theorem C2_amended_empty_short_circuit (ts : List Threshold) :
    energy_label [] ts = some ⟨'A', 0, 0, 0, 9999⟩ := rfl

/-- C3: for every non-empty finding set whose count summary satisfies no rule
of a non-empty threshold table, the classifier returns `'F'` carrying the
actual computed counts and max age, after the walk has examined every rule
without a match. -/
theorem C3_no_match_fallback (ms : List Measurement) (ts : List Threshold)
    (hms : ms ≠ []) (hts : ts ≠ [])
    (hnone : ts.find? (fun r =>
      decide (countSeverity ms "High" ≤ r.high ∧
        countSeverity ms "Medium" ≤ r.medium ∧
        countSeverity ms "Low" ≤ r.low ∧
        maxDaysOpenOf ms < r.days_open_less_than)) = none) :
    energy_label ms ts =
      some ⟨'F', countSeverity ms "High", countSeverity ms "Medium",
        countSeverity ms "Low", maxDaysOpenOf ms⟩ := by
  unfold energy_label
  rw [if_neg (isEmpty_false_of_ne_nil ms hms)]
  exact thresholdLoop_find?_none _ _ _ _ ts none hnone hts

/-- Witness for C3: one High finding against a table whose single rule caps
high at 0 — no rule matches, the fallback carries the computed counts. -/
theorem C3_no_match_fallback_witness :
    ([⟨"s", "rg1", "High", 3⟩] : List Measurement) ≠ [] ∧
    energy_label [⟨"s", "rg1", "High", 3⟩] [⟨'A', 0, 10, 20, 999⟩]
      = some ⟨'F', 1, 0, 0, 3⟩ := by
  refine ⟨by decide, ?_⟩
  rw [C3_no_match_fallback [⟨"s", "rg1", "High", 3⟩] [⟨'A', 0, 10, 20, 999⟩]
    (by decide) (by decide) (by decide)]
  decide

/-- C9: for every non-empty finding set, if the count/threshold computation
raises (for example because a rule dict lacks one of the keys `high`,
`medium`, `low`, `days_open_less_than` or `label`), the classifier does not
propagate the exception: the `except Exception` branch returns a label object
with label `'F'` and zero high/medium/low counts. -/
theorem C9_exception_swallowed (ms : List Measurement) (ts : List ThresholdDict)
    (hms : ms ≠ [])
    (herr : ∃ e, thresholdLoopDyn (countSeverity ms "High") (countSeverity ms "Medium")
      (countSeverity ms "Low") (maxDaysOpenOf ms) none ts = Except.error e) :
    energy_label_dyn ms ts = some ⟨'F', 0, 0, 0, 9999⟩ := by
  obtain ⟨e, he⟩ := herr
  unfold energy_label_dyn
  rw [if_neg (isEmpty_false_of_ne_nil ms hms), he]

/-- Witness for C9: the `RESOURCE_GROUP_THRESHOLDS` table shipped in
configuration.py has no `days_open_less_than` keys, so its first rule raises
`KeyError` for any non-empty finding set; the classifier returns the
`'F'`/zero-counts object. -/
theorem C9_exception_swallowed_witness :
    ([⟨"s", "rg1", "High", 1⟩] : List Measurement) ≠ [] ∧
    energy_label_dyn [⟨"s", "rg1", "High", 1⟩] RESOURCE_GROUP_THRESHOLDS
      = some ⟨'F', 0, 0, 0, 9999⟩ :=
  ⟨by decide,
   C9_exception_swallowed [⟨"s", "rg1", "High", 1⟩] RESOURCE_GROUP_THRESHOLDS
     (by decide) ⟨PyError.keyError, rfl⟩⟩

theorem listMaxInt_mem (x : Int) (xs : List Int) : listMaxInt (x :: xs) ∈ x :: xs :=
  foldl_max_mem xs x

theorem listMaxInt_le (x : Int) (xs : List Int) (y : Int) (hy : y ∈ x :: xs) :
    y ≤ listMaxInt (x :: xs) := by
  rcases List.mem_cons.mp hy with h | h
  · subst h; exact foldl_max_le_init xs y
  · exact foldl_max_le_mem xs x y h

/-- C8 counterexample: a single High finding whose `status_change_date` did
not parse has `days_open = -1`, and the max age the classifier uses for it is
`-1`, not `0` — the `-1` is not excluded from the maximum-age computation. -/
theorem C8_counterexample :
    Finding.days_open 100 ⟨"rec1", "High", "s", "rg1", "", "", none⟩ = -1 ∧
    maxDaysOpenOf [Finding.measurement_data 100 ⟨"rec1", "High", "s", "rg1", "", "", none⟩]
      = -1 ∧
    ((-1 : Int) ≠ 0) := by
  decide

/-- C8 amended: for every non-empty finding set the max age used in rule
matching is the maximum `days_open` over the findings with severity High,
Medium or Low (0 when there are no such findings); an unparsable age
contributes `days_open = -1`, which participates in the maximum — it can
never exceed another finding's age, but it is the result when every such
finding is unparsable — and classification is not aborted. -/
theorem C8_amended_max_age (ms : List Measurement) (hms : ms ≠ []) :
    (lowOrHigher ms = [] → maxDaysOpenOf ms = 0) ∧
    (lowOrHigher ms ≠ [] →
      maxDaysOpenOf ms = listMaxInt ((lowOrHigher ms).map (fun r => r.daysOpen)) ∧
      ∀ r ∈ lowOrHigher ms, r.daysOpen ≤ maxDaysOpenOf ms) ∧
    ((lowOrHigher ms ≠ [] ∧ ∀ r ∈ lowOrHigher ms, r.daysOpen = -1) →
      maxDaysOpenOf ms = -1) ∧
    ∀ ts : List Threshold, ts ≠ [] → ∃ e, energy_label ms ts = some e := by
  refine ⟨?_, ?_, ?_, ?_⟩
  · intro h
    unfold maxDaysOpenOf
    rw [h]
    simp
  · intro h
    obtain ⟨x, xs, hx⟩ := List.exists_cons_of_ne_nil h
    have hpos : 0 < (lowOrHigher ms).length := by rw [hx]; simp
    have hval : maxDaysOpenOf ms = listMaxInt ((lowOrHigher ms).map (fun r => r.daysOpen)) := by
      unfold maxDaysOpenOf
      rw [if_pos hpos]
    refine ⟨hval, ?_⟩
    intro r hr
    rw [hval, hx, List.map_cons]
    exact listMaxInt_le _ _ _ (by
      rw [← List.map_cons, ← hx]
      exact List.mem_map_of_mem (fun r => r.daysOpen) hr)
  · rintro ⟨h, hall⟩
    obtain ⟨x, xs, hx⟩ := List.exists_cons_of_ne_nil h
    have hpos : 0 < (lowOrHigher ms).length := by rw [hx]; simp
    unfold maxDaysOpenOf
    rw [if_pos hpos, hx]
    simp only [List.map_cons]
    have hmem := listMaxInt_mem x.daysOpen (xs.map (fun r => r.daysOpen))
    rcases List.mem_cons.mp hmem with hc | hc
    · rw [hc]
      exact hall x (hx ▸ List.mem_cons_self x xs)
    · obtain ⟨r, hr, hrd⟩ := List.mem_map.mp hc
      rw [← hrd]
      exact hall r (hx ▸ List.mem_cons_of_mem x hr)
  · intro ts hts
    unfold energy_label
    rw [if_neg (isEmpty_false_of_ne_nil ms hms),
      thresholdLoop_characterization _ _ _ _ ts hts]
    exact ⟨_, rfl⟩

/-- Witness for C8 amended: a single High finding with unparsable age gives a
max age of -1, via the all-unparsable conjunct of the amended claim. -/
theorem C8_amended_max_age_witness :
    ([⟨"s", "rg1", "High", -1⟩] : List Measurement) ≠ [] ∧
    maxDaysOpenOf [⟨"s", "rg1", "High", -1⟩] = -1 := by
  refine ⟨by decide, ?_⟩
  exact (C8_amended_max_age [⟨"s", "rg1", "High", -1⟩] (by decide)).2.2.1
    ⟨by decide, by decide⟩

/-- C10: with an empty in-scope subscription set, the tenant aggregation is
not total — the cumulative-coverage computation divides the running sum by
the number of labeled subscriptions, which is zero, raising
`ZeroDivisionError` instead of returning a label. -/
theorem C10_empty_scope_zero_division (ts : List TenantThreshold) (hts : ts ≠ []) :
    get_energy_label_of_targeted_subscriptions [] ts
      = Except.error PyError.zeroDivision := by
  obtain ⟨t, ts', rfl⟩ := List.exists_cons_of_ne_nil hts
  rfl

/-- Witness for C10: the shipped `TENANT_THRESHOLDS` table with no labeled
subscriptions raises the division error. -/
theorem C10_empty_scope_zero_division_witness :
    TENANT_THRESHOLDS ≠ [] ∧
    get_energy_label_of_targeted_subscriptions [] TENANT_THRESHOLDS
      = Except.error PyError.zeroDivision :=
  ⟨by decide, C10_empty_scope_zero_division TENANT_THRESHOLDS (by decide)⟩

/-- Membership test by recommendation id, for stating the dedup law. -/
def hasRecId (rid : String) (g : Finding) : Bool :=
  g.recommendation_id == rid

theorem any_insertFinding (s : List Finding) (f : Finding) (rid : String) :
    (insertFinding s f).any (hasRecId rid)
      = (s.any (hasRecId rid) || hasRecId rid f) := by
  unfold insertFinding
  by_cases hs : s.any (fun g => findingEq g f) = true
  · rw [if_pos hs]
    by_cases hf : f.recommendation_id = rid
    · obtain ⟨g, hg, hgf⟩ := List.any_eq_true.mp hs
      have hgid : g.recommendation_id = f.recommendation_id := by
        simpa [findingEq, findingHash] using hgf
      have hany : s.any (hasRecId rid) = true :=
        List.any_eq_true.mpr ⟨g, hg, by simp [hasRecId, hgid, hf]⟩
      simp [hany]
    · simp [hasRecId, hf]
  · rw [if_neg hs]
    simp [List.any_append]

theorem countP_insertFinding (s : List Finding) (f : Finding) (rid : String)
    (hinv : s.countP (hasRecId rid) = if s.any (hasRecId rid) = true then 1 else 0) :
    (insertFinding s f).countP (hasRecId rid)
      = if (insertFinding s f).any (hasRecId rid) = true then 1 else 0 := by
  rw [any_insertFinding]
  unfold insertFinding
  by_cases hs : s.any (fun g => findingEq g f) = true
  · rw [if_pos hs]
    by_cases hf : f.recommendation_id = rid
    · obtain ⟨g, hg, hgf⟩ := List.any_eq_true.mp hs
      have hgid : g.recommendation_id = f.recommendation_id := by
        simpa [findingEq, findingHash] using hgf
      have hany : s.any (hasRecId rid) = true :=
        List.any_eq_true.mpr ⟨g, hg, by simp [hasRecId, hgid, hf]⟩
      rw [hinv, hany]
      simp
    · have hff : hasRecId rid f = false := by simp [hasRecId, hf]
      rw [hinv, hff]
      simp
  · rw [if_neg hs]
    rw [List.countP_append, hinv]
    by_cases hf : f.recommendation_id = rid
    · have hff : hasRecId rid f = true := by simp [hasRecId, hf]
      have hsf : s.any (hasRecId rid) = false := by
        cases hb : s.any (hasRecId rid) with
        | false => rfl
        | true =>
          exfalso
          obtain ⟨g, hg, hgid⟩ := List.any_eq_true.mp hb
          apply hs
          refine List.any_eq_true.mpr ⟨g, hg, ?_⟩
          simp only [hasRecId, beq_iff_eq] at hgid
          simp [findingEq, findingHash, hgid, hf]
      rw [hsf, hff]
      simp [hff]
    · have hff : hasRecId rid f = false := by simp [hasRecId, hf]
      rw [hff]
      simp [hff]

theorem any_foldl_insert (rid : String) :
    ∀ (ds s : List Finding),
      ((ds.foldl insertFinding s).any (hasRecId rid))
        = (s.any (hasRecId rid) || ds.any (hasRecId rid)) := by
  intro ds
  induction ds with
  | nil => intro s; simp
  | cons d ds ih =>
    intro s
    rw [List.foldl_cons, ih, any_insertFinding]
    simp [Bool.or_assoc]

theorem countP_foldl_insert (rid : String) :
    ∀ (ds s : List Finding),
      (s.countP (hasRecId rid) = if s.any (hasRecId rid) = true then 1 else 0) →
      ((ds.foldl insertFinding s).countP (hasRecId rid)
        = if (ds.foldl insertFinding s).any (hasRecId rid) = true then 1 else 0) := by
  intro ds
  induction ds with
  | nil => intro s h; simpa using h
  | cons d ds ih =>
    intro s h
    rw [List.foldl_cons]
    exact ih _ (countP_insertFinding s d rid h)

/-- C6: two findings are equal exactly when their `recommendation_id`s are
equal (no other field participates), and ingesting raw records with the same
`recommendation_id` any number of times — e.g. under two different
frameworks — yields exactly one `Finding` with that id in the resulting
collection (one when some ingested record carries the id, zero otherwise). -/
theorem C6_dedup_by_recommendation_id :
    (∀ a b : Finding, findingEq a b = true ↔ a.recommendation_id = b.recommendation_id) ∧
    ∀ (qs : List (List Finding)) (rid : String),
      (get_findings qs).countP (hasRecId rid)
        = if qs.any (fun q => q.any (hasRecId rid)) = true then 1 else 0 := by
  constructor
  · intro a b
    simp [findingEq, findingHash]
  · have key : ∀ (qs : List (List Finding)) (rid : String) (s : List Finding),
        (s.countP (hasRecId rid) = if s.any (hasRecId rid) = true then 1 else 0) →
        ((qs.foldl (fun acc q => q.foldl insertFinding acc) s).countP (hasRecId rid)
          = if (s.any (hasRecId rid) || qs.any (fun q => q.any (hasRecId rid))) = true
            then 1 else 0) := by
      intro qs rid
      induction qs with
      | nil => intro s hs; simpa using hs
      | cons q qs ih =>
        intro s hs
        rw [List.foldl_cons]
        have h1 := countP_foldl_insert rid q s hs
        rw [ih _ h1, any_foldl_insert]
        simp [Bool.or_assoc]
    intro qs rid
    unfold get_findings
    simpa using key qs rid [] (by simp)

theorem filter_seen_append (l seen : List Char) (a : Char) (ha : a ∉ seen) :
    (l.filter (fun c => decide (c ∈ seen ++ [a]))).length
      = (l.filter (fun c => decide (c ∈ seen))).length + counterGet l a := by
  unfold counterGet
  induction l with
  | nil => simp
  | cons x xs ih =>
    simp only [List.filter_cons]
    by_cases hxa : x = a
    · have hxs : ¬ x ∈ seen := fun hc => ha (hxa ▸ hc)
      have e1 : decide (x ∈ seen ++ [a]) = true :=
        decide_eq_true (List.mem_append.mpr (Or.inr (by simp [hxa])))
      have e2 : decide (x ∈ seen) = false := decide_eq_false hxs
      have e3 : (x == a) = true := beq_iff_eq.mpr hxa
      rw [if_pos e1, if_neg (by rw [e2]; simp), if_pos e3]
      simp only [List.length_cons]
      rw [ih]
      omega
    · by_cases hxs : x ∈ seen
      · have e1 : decide (x ∈ seen ++ [a]) = true :=
          decide_eq_true (List.mem_append.mpr (Or.inl hxs))
        have e2 : decide (x ∈ seen) = true := decide_eq_true hxs
        have e3 : (x == a) = false := by simp [hxa]
        rw [if_pos e1, if_pos e2, if_neg (by rw [e3]; simp)]
        simp only [List.length_cons]
        rw [ih]
        omega
      · have e1 : decide (x ∈ seen ++ [a]) = false := by
          refine decide_eq_false ?_
          intro hc
          rcases List.mem_append.mp hc with hc | hc
          · exact hxs hc
          · exact hxa (by simpa using hc)
        have e2 : decide (x ∈ seen) = false := decide_eq_false hxs
        have e3 : (x == a) = false := by simp [hxa]
        rw [if_neg (by rw [e1]; simp), if_neg (by rw [e2]; simp),
          if_neg (by rw [e3]; simp)]
        exact ih

theorem tenantThresholdLoop_cons (subLabels : List Char) (n runningSum : Nat)
    (t : TenantThreshold) (ts : List TenantThreshold) :
    tenantThresholdLoop subLabels n runningSum (t :: ts)
      = (if n = 0 then Except.error PyError.zeroDivision
         else if t.percentage ≤ ((runningSum + counterGet subLabels t.label : Nat) : ℚ)
             / (n : ℚ) * 100 then
           Except.ok (some ⟨t.label, listMinChar (counterKeys subLabels),
             listMaxChar (counterKeys subLabels), n⟩)
         else tenantThresholdLoop subLabels n (runningSum + counterGet subLabels t.label) ts) :=
  rfl

theorem specCumulativeWalk_cons (subLabels seen : List Char) (t : TenantThreshold)
    (ts : List TenantThreshold) :
    specCumulativeWalk subLabels seen (t :: ts)
      = (if t.percentage ≤
            ((subLabels.filter (fun c => decide (c ∈ seen ++ [t.label]))).length : ℚ)
            / (subLabels.length : ℚ) * 100 then some t.label
         else specCumulativeWalk subLabels (seen ++ [t.label]) ts) :=
  rfl

theorem tenantLoop_spec_walk (subLabels : List Char) (hne : subLabels ≠ []) :
    ∀ (ts : List TenantThreshold) (seen : List Char),
      (seen ++ ts.map TenantThreshold.label).Nodup →
      tenantThresholdLoop subLabels subLabels.length
        ((subLabels.filter (fun c => decide (c ∈ seen))).length) ts
      = match specCumulativeWalk subLabels seen ts with
        | some c => Except.ok (some ⟨c, listMinChar (counterKeys subLabels),
            listMaxChar (counterKeys subLabels), subLabels.length⟩)
        | none => Except.ok none := by
  intro ts
  induction ts with
  | nil => intro seen _; rfl
  | cons t ts ih =>
    intro seen hnd
    have hn0 : ¬ (subLabels.length = 0) := by
      simpa [List.length_eq_zero] using hne
    have hanotin : t.label ∉ seen := by
      intro hc
      have hdisj := (List.nodup_append.mp hnd).2.2
      exact hdisj hc (List.mem_cons_self t.label (ts.map TenantThreshold.label))
    have hsum : (subLabels.filter (fun c => decide (c ∈ seen))).length
        + counterGet subLabels t.label
        = (subLabels.filter (fun c => decide (c ∈ seen ++ [t.label]))).length :=
      (filter_seen_append subLabels seen t.label hanotin).symm
    rw [tenantThresholdLoop_cons, if_neg hn0, specCumulativeWalk_cons, hsum]
    by_cases hcond : t.percentage ≤
        ((subLabels.filter (fun c => decide (c ∈ seen ++ [t.label]))).length : ℚ)
        / (subLabels.length : ℚ) * 100
    · rw [if_pos hcond, if_pos hcond]
    · rw [if_neg hcond, if_neg hcond]
      have hnd' : ((seen ++ [t.label]) ++ ts.map TenantThreshold.label).Nodup := by
        rw [List.append_assoc]
        simpa using hnd
      exact ih (seen ++ [t.label]) hnd'

/-- C5: for every non-empty list of in-scope labeled subscriptions and a
tenant table with distinct labels, the tenant aggregation walks the table
best-to-worst accumulating the running count of subscriptions whose label
equals any label seen so far; the first rule whose cumulative percentage
(running sum / total * 100) is greater than or equal to its bound wins
(inclusive boundary), `'F'` if none match; in both cases the result carries
the alphabetically smallest and largest observed subscription labels as best
and worst. -/
theorem C5_tenant_aggregation (subLabels : List Char) (ts : List TenantThreshold)
    (hne : subLabels ≠ []) (hnd : (ts.map TenantThreshold.label).Nodup) :
    ∃ r, get_energy_label_of_targeted_subscriptions subLabels ts = Except.ok r ∧
      r.label = (specCumulativeWalk subLabels [] ts).getD 'F' ∧
      r.best_label = listMinChar subLabels ∧
      r.worst_label = listMaxChar subLabels ∧
      r.subscriptions_measured = subLabels.length := by
  have hkey := tenantLoop_spec_walk subLabels hne ts [] (by simpa using hnd)
  have h0 : (subLabels.filter (fun c => decide (c ∈ ([] : List Char)))).length = 0 := by
    simp
  rw [h0] at hkey
  unfold get_energy_label_of_targeted_subscriptions
  cases hw : specCumulativeWalk subLabels [] ts with
  | some c =>
    rw [hw] at hkey
    rw [hkey]
    refine ⟨_, rfl, ?_, ?_, ?_, rfl⟩
    · simp [hw]
    · exact listMinChar_counterKeys _ hne
    · exact listMaxChar_counterKeys _ hne
  | none =>
    rw [hw] at hkey
    rw [hkey]
    rw [if_neg (isEmpty_false_of_ne_nil _ (counterKeys_ne_nil _ hne))]
    refine ⟨_, rfl, ?_, ?_, ?_, rfl⟩
    · simp [hw]
    · exact listMinChar_counterKeys _ hne
    · exact listMaxChar_counterKeys _ hne

/-- Witness for C5: one subscription labeled `'A'` against the shipped
tenant table — cumulative coverage 100% matches the first rule. -/
theorem C5_tenant_aggregation_witness :
    (['A'] : List Char) ≠ [] ∧ (TENANT_THRESHOLDS.map TenantThreshold.label).Nodup ∧
    ∃ r, get_energy_label_of_targeted_subscriptions ['A'] TENANT_THRESHOLDS = Except.ok r ∧
      r.label = (specCumulativeWalk ['A'] [] TENANT_THRESHOLDS).getD 'F' ∧
      r.best_label = listMinChar ['A'] ∧
      r.worst_label = listMaxChar ['A'] ∧
      r.subscriptions_measured = (['A'] : List Char).length :=
  ⟨by decide, by decide,
   C5_tenant_aggregation ['A'] TENANT_THRESHOLDS (by decide) (by decide)⟩

/-- Validity of an ordered severity threshold table as the spec requires:
non-empty, positive day bound on every rule, labels between `'A'` and `'F'`,
ordered from best label to worst. -/
def ValidTable (ts : List Threshold) : Prop :=
  ts ≠ [] ∧
  (∀ t ∈ ts, 0 < t.days_open_less_than) ∧
  (∀ t ∈ ts, 'A' ≤ t.label ∧ t.label ≤ 'F') ∧
  (ts.map Threshold.label).Pairwise (· ≤ ·)

theorem labelOr_find?_mono (p1 p2 : Threshold → Bool) :
    ∀ ts : List Threshold,
      (∀ t ∈ ts, p2 t = true → p1 t = true) →
      ((ts.map Threshold.label).Pairwise (· ≤ ·)) →
      (∀ t ∈ ts, t.label ≤ 'F') →
      labelOr (ts.find? p1) ≤ labelOr (ts.find? p2) := by
  intro ts
  induction ts with
  | nil =>
    intro _ _ _
    simp [labelOr, List.find?]
  | cons x xs ih =>
    intro himp hsort hbound
    have hsortm : (x.label :: xs.map Threshold.label).Pairwise (· ≤ ·) := by
      simpa using hsort
    have hsort' := List.pairwise_cons.mp hsortm
    cases hp2 : p2 x with
    | true =>
      have hp1 : p1 x = true := himp x (List.mem_cons_self x xs) hp2
      rw [List.find?_cons_of_pos _ hp1, List.find?_cons_of_pos _ hp2]
    | false =>
      rw [List.find?_cons_of_neg xs (show ¬ (p2 x = true) from by simp [hp2])]
      cases hp1 : p1 x with
      | true =>
        rw [List.find?_cons_of_pos _ hp1]
        cases hf2 : xs.find? p2 with
        | none =>
          simpa [labelOr] using (hbound x (List.mem_cons_self x xs))
        | some t2 =>
          have ht2 : t2 ∈ xs := List.mem_of_find?_eq_some hf2
          simpa [labelOr] using hsort'.1 t2.label (List.mem_map_of_mem Threshold.label ht2)
      | false =>
        rw [List.find?_cons_of_neg xs (show ¬ (p1 x = true) from by simp [hp1])]
        exact ih (fun t ht => himp t (List.mem_cons_of_mem x ht)) hsort'.2
          (fun t ht => hbound t (List.mem_cons_of_mem x ht))

theorem labelOr_ge_A (p : Threshold → Bool) (ts : List Threshold)
    (hlab : ∀ t ∈ ts, 'A' ≤ t.label) : 'A' ≤ labelOr (ts.find? p) := by
  cases hf : ts.find? p with
  | none => simp [labelOr]
  | some t => simpa [labelOr] using hlab t (List.mem_of_find?_eq_some hf)

theorem countSeverity_append (ms : List Measurement) (f : Measurement) (sev : String) :
    countSeverity (ms ++ [f]) sev
      = countSeverity ms sev + (if (f.severity == sev) = true then 1 else 0) := by
  unfold countSeverity
  rw [List.filter_append]
  by_cases hf : (f.severity == sev) = true
  · rw [if_pos hf]
    simp [List.filter_cons, hf]
  · rw [if_neg hf]
    simp [List.filter_cons, Bool.eq_false_iff.mpr hf]

theorem lowOrHigher_append_high (ms : List Measurement) (f : Measurement)
    (hsev : f.severity = "High") :
    lowOrHigher (ms ++ [f]) = lowOrHigher ms ++ [f] := by
  unfold lowOrHigher
  rw [List.filter_append]
  congr 1
  simp [List.filter_cons, hsev]

theorem maxDaysOpenOf_append_high (ms : List Measurement) (f : Measurement)
    (hsev : f.severity = "High") :
    (lowOrHigher ms = [] ∧ maxDaysOpenOf (ms ++ [f]) = f.daysOpen) ∨
    (lowOrHigher ms ≠ [] ∧ maxDaysOpenOf ms ≤ maxDaysOpenOf (ms ++ [f])) := by
  have hl := lowOrHigher_append_high ms f hsev
  by_cases h : lowOrHigher ms = []
  · left
    refine ⟨h, ?_⟩
    unfold maxDaysOpenOf
    rw [hl, h]
    simp [listMaxInt]
  · right
    refine ⟨h, ?_⟩
    obtain ⟨x, xs, hx⟩ := List.exists_cons_of_ne_nil h
    unfold maxDaysOpenOf
    rw [hl, hx]
    simp only [List.append_eq, List.map_append, List.map_cons, List.length_append,
      List.length_cons, List.map_nil]
    rw [if_pos (by simp), if_pos (by omega)]
    show (xs.map (fun r => r.daysOpen)).foldl max x.daysOpen
      ≤ ((xs.map (fun r => r.daysOpen)) ++ [f.daysOpen]).foldl max x.daysOpen
    rw [List.foldl_append]
    exact le_max_left _ _

/-- C7: for a fixed valid ordered threshold table, appending one additional
High-severity finding never improves the label: the new label is
alphabetically greater than or equal to the old one. -/
theorem C7_high_finding_monotone (ms : List Measurement) (f : Measurement)
    (ts : List Threshold) (hvalid : ValidTable ts) (hsev : f.severity = "High") :
    ∃ e e2, energy_label ms ts = some e ∧ energy_label (ms ++ [f]) ts = some e2 ∧
      e.label ≤ e2.label := by
  obtain ⟨hne, hdays, hlab, hsort⟩ := hvalid
  have hnew_ne : ms ++ [f] ≠ [] := by simp
  have hchar2 := thresholdLoop_characterization (countSeverity (ms ++ [f]) "High")
    (countSeverity (ms ++ [f]) "Medium") (countSeverity (ms ++ [f]) "Low")
    (maxDaysOpenOf (ms ++ [f])) ts hne
  have h2 : energy_label (ms ++ [f]) ts =
      some ⟨labelOr (ts.find? (fun r =>
        decide (countSeverity (ms ++ [f]) "High" ≤ r.high ∧
          countSeverity (ms ++ [f]) "Medium" ≤ r.medium ∧
          countSeverity (ms ++ [f]) "Low" ≤ r.low ∧
          maxDaysOpenOf (ms ++ [f]) < r.days_open_less_than))),
        countSeverity (ms ++ [f]) "High", countSeverity (ms ++ [f]) "Medium",
        countSeverity (ms ++ [f]) "Low", maxDaysOpenOf (ms ++ [f])⟩ := by
    unfold energy_label
    rw [if_neg (isEmpty_false_of_ne_nil _ hnew_ne)]
    exact hchar2
  by_cases hms : ms = []
  · subst hms
    refine ⟨⟨'A', 0, 0, 0, 9999⟩, _, rfl, h2, ?_⟩
    exact labelOr_ge_A _ ts (fun t ht => (hlab t ht).1)
  · have hchar1 := thresholdLoop_characterization (countSeverity ms "High")
      (countSeverity ms "Medium") (countSeverity ms "Low") (maxDaysOpenOf ms) ts hne
    have h1 : energy_label ms ts =
        some ⟨labelOr (ts.find? (fun r =>
          decide (countSeverity ms "High" ≤ r.high ∧
            countSeverity ms "Medium" ≤ r.medium ∧
            countSeverity ms "Low" ≤ r.low ∧
            maxDaysOpenOf ms < r.days_open_less_than))),
          countSeverity ms "High", countSeverity ms "Medium",
          countSeverity ms "Low", maxDaysOpenOf ms⟩ := by
      unfold energy_label
      rw [if_neg (isEmpty_false_of_ne_nil _ hms)]
      exact hchar1
    refine ⟨_, _, h1, h2, ?_⟩
    · show labelOr _ ≤ labelOr _
      apply labelOr_find?_mono _ _ ts _ hsort (fun t ht => (hlab t ht).2)
      intro t ht hp2
      have hmatch2 := of_decide_eq_true hp2
      obtain ⟨h2h, h2m, h2l, h2d⟩ := hmatch2
      apply decide_eq_true
      have hhi : countSeverity (ms ++ [f]) "High" = countSeverity ms "High" + 1 := by
        rw [countSeverity_append]
        simp [hsev]
      have hme : countSeverity (ms ++ [f]) "Medium" = countSeverity ms "Medium" := by
        rw [countSeverity_append]
        simp [hsev]
      have hlo : countSeverity (ms ++ [f]) "Low" = countSeverity ms "Low" := by
        rw [countSeverity_append]
        simp [hsev]
      refine ⟨by rw [hhi] at h2h; omega, by rw [hme] at h2m; exact h2m,
        by rw [hlo] at h2l; exact h2l, ?_⟩
      rcases maxDaysOpenOf_append_high ms f hsev with ⟨hml, _⟩ | ⟨_, hle⟩
      · have : maxDaysOpenOf ms = 0 := by
          unfold maxDaysOpenOf
          rw [hml]
          simp
        rw [this]
        exact hdays t ht
      · exact lt_of_le_of_lt hle h2d

/-- Witness for C7: the empty set classifies to `'A'`; adding one High
finding yields `'B'` under a two-rule valid table — not an improvement. -/
theorem C7_high_finding_monotone_witness :
    ValidTable [⟨'A', 0, 10, 20, 999⟩, ⟨'B', 10, 20, 40, 999⟩] ∧
    (⟨"s", "rg1", "High", 3⟩ : Measurement).severity = "High" ∧
    ∃ e e2, energy_label [] [⟨'A', 0, 10, 20, 999⟩, ⟨'B', 10, 20, 40, 999⟩] = some e ∧
      energy_label ([] ++ [⟨"s", "rg1", "High", 3⟩])
        [⟨'A', 0, 10, 20, 999⟩, ⟨'B', 10, 20, 40, 999⟩] = some e2 ∧
      e.label ≤ e2.label :=
  ⟨⟨by decide, by decide, by decide, by decide⟩, rfl,
   C7_high_finding_monotone [] ⟨"s", "rg1", "High", 3⟩
     [⟨'A', 0, 10, 20, 999⟩, ⟨'B', 10, 20, 40, 999⟩]
     ⟨by decide, by decide, by decide, by decide⟩ rfl⟩

/-- C4 counterexample: on a subscription whose scoped findings classify to
`'A'` while its one resource group classifies to `'F'` (so the spec's
coverage-based candidate is `'F'` and the reconciled worse-of-two label is
`'F'`), the code returns the finding-based label `'A'` — it computes no
second candidate and no reconciliation, refuting the claim at this input. -/
theorem C4_counterexample :
    (Subscription.get_energy_label "s" [⟨'A', 0, 10, 20, 999⟩]
      [⟨"s", "rg1", "Low", 1⟩]).map EnergyLabel.label = some 'A' ∧
    (specSubscriptionAggregate "s" [⟨'A', 0, 10, 20, 999⟩] [⟨'A', 0, 0, 0, 999⟩]
      TENANT_THRESHOLDS ["rg1"] [⟨"s", "rg1", "Low", 1⟩]).map
      SpecAggregateEnergyLabel.label = some 'F' ∧
    ('A' : Char) ≠ 'F' := by
  have hfb : energy_label
      (Subscription.get_open_findings "s" [⟨"s", "rg1", "Low", 1⟩])
      [⟨'A', 0, 10, 20, 999⟩] = some ⟨'A', 0, 0, 1, 1⟩ := by decide
  have hrg0 : energy_label (ResourceGroup.get_open_findings "rg1"
      [⟨"s", "rg1", "Low", 1⟩]) [⟨'A', 0, 0, 0, 999⟩] = some ⟨'F', 0, 0, 1, 1⟩ := by
    decide
  have hcov : specCoverageLabel ['F'] TENANT_THRESHOLDS = 'F' := by
    norm_num [specCoverageLabel, TENANT_THRESHOLDS, specCumulativeWalk,
      List.filter_cons, List.filter_nil]
    rw [if_neg (show ¬('F' = 'A') from by decide),
      if_neg (show ¬('F' = 'A' ∨ 'F' = 'B') from by decide),
      if_neg (show ¬('F' = 'A' ∨ 'F' = 'B' ∨ 'F' = 'C') from by decide),
      if_neg (show ¬('F' = 'A' ∨ 'F' = 'B' ∨ 'F' = 'C' ∨ 'F' = 'D') from by decide),
      if_neg (show ¬('F' = 'A' ∨ 'F' = 'B' ∨ 'F' = 'C' ∨ 'F' = 'D' ∨ 'F' = 'E')
        from by decide)]
    norm_num
  refine ⟨by decide, ?_, by decide⟩
  unfold specSubscriptionAggregate
  rw [hfb]
  simp only [List.map_cons, List.map_nil, hrg0, Option.getD_some, hcov]
  decide

/-- C4 amended: `Subscription.get_energy_label` performs a single
finding-based classification of the subscription-scoped findings against the
subscription threshold table — no coverage-based candidate is computed, no
lexicographic reconciliation of two labels occurs, and the returned object
carries the matched label with the computed counts, not two candidate labels
or a resource-group count. -/
theorem C4_amended_single_path (subId : String) (table : List Threshold)
    (ms : List Measurement) :
    Subscription.get_energy_label subId table ms
      = energy_label (Subscription.get_open_findings subId ms) table ∧
    ∀ t : Threshold, Subscription.get_open_findings subId ms ≠ [] →
      table.find? (fun r =>
        decide (countSeverity (Subscription.get_open_findings subId ms) "High" ≤ r.high ∧
          countSeverity (Subscription.get_open_findings subId ms) "Medium" ≤ r.medium ∧
          countSeverity (Subscription.get_open_findings subId ms) "Low" ≤ r.low ∧
          maxDaysOpenOf (Subscription.get_open_findings subId ms) < r.days_open_less_than))
        = some t →
      Subscription.get_energy_label subId table ms
        = some ⟨t.label,
            countSeverity (Subscription.get_open_findings subId ms) "High",
            countSeverity (Subscription.get_open_findings subId ms) "Medium",
            countSeverity (Subscription.get_open_findings subId ms) "Low",
            maxDaysOpenOf (Subscription.get_open_findings subId ms)⟩ := by
  refine ⟨rfl, ?_⟩
  intro t hne hfind
  unfold Subscription.get_energy_label energy_label
  rw [if_neg (isEmpty_false_of_ne_nil _ hne)]
  exact thresholdLoop_find?_some _ _ _ _ table none t hfind

/-- Witness for C4 amended: one Low finding scoped to subscription `"s"`
classifies to `'A'` with the computed counts. -/
theorem C4_amended_single_path_witness :
    Subscription.get_open_findings "s" [⟨"s", "rg1", "Low", 1⟩] ≠ [] ∧
    Subscription.get_energy_label "s" [⟨'A', 0, 10, 20, 999⟩]
      [⟨"s", "rg1", "Low", 1⟩] = some ⟨'A', 0, 0, 1, 1⟩ := by
  refine ⟨by decide, ?_⟩
  have h := (C4_amended_single_path "s" [⟨'A', 0, 10, 20, 999⟩]
    [⟨"s", "rg1", "Low", 1⟩]).2 ⟨'A', 0, 10, 20, 999⟩ (by decide) (by decide)
  rw [h]
  decide

end Azel
